import Mathlib

/-!
Verification development for the `gbm_org_analysis` repository.

The repository builds "wide" tables (one column per organoid identifier) out
of per-organoid measurement sequences, aggregates them per experimental group,
derives threshold counts and outlier bounds, normalizes against per-group
baselines and merges experimental replicates.

Identifiers (file names, column names, group names) are modelled as their
character lists, so that python string slicing (`s[:-5]`, `s[:-1]`),
`str.startswith` and `str.split` translate to `List.take`, `List.isPrefixOf`
and an explicit split.  Scalar measurements are modelled as rationals;
a pandas `NaN` cell is modelled as `none` in `List (Option ℚ)`.  Trailing
`NaN` padding that pandas adds to make a frame rectangular is elided in the
`List (Str × List ℚ)` dictionary representation; it is reinstated explicitly
(`Option` entries) wherever a function's behaviour can observe it.
-/

namespace GbmOrg

/-- A python string, as its list of characters. -/
abbrev Str := List Char

/-- A wide table whose cells can be missing (pandas `NaN` = `none`). -/
abbrev Table := List (Str × List (Option ℚ))

/-- A python dict from identifier to a plain (NaN-free) value list. -/
abbrev QDict := List (Str × List ℚ)

/-- First-match association lookup: python `dict[key]` / `dict.get(key)`
for dicts represented as insertion-ordered pair lists with unique keys. -/
def alookup {α : Type} : List (Str × α) → Str → Option α
  | [], _ => none
  | (k, v) :: rest, c => if k = c then some v else alookup rest c

/-- Python `dict` update `d[k] = v`: replaces the value in place if the key
is present (keeping insertion order), otherwise appends the new pair. -/
def dictUpdate {α : Type} : List (Str × α) → Str → α → List (Str × α)
  | [], k, v => [(k, v)]
  | (k', v') :: rest, k, v =>
      if k' = k then (k, v) :: rest else (k', v') :: dictUpdate rest k v

/-- Python `list(dict.fromkeys(l))`: removes duplicates keeping the first
occurrence of each element, preserving order. -/
def pyDedup {α : Type} [DecidableEq α] : List α → List α → List α
  | [], _ => []
  | a :: l, seen => if a ∈ seen then pyDedup l seen else a :: pyDedup l (a :: seen)

/-- `pyDedupAll l` is `pyDedup` started with nothing seen. -/
def pyDedupAll {α : Type} [DecidableEq α] (l : List α) : List α := pyDedup l []

/-- The `cumulative` helper of `integrate.GbmCellData.__init__`
(integrate.py lines 37-43): running partial sums of a list. -/
def cumulative : List ℕ → List ℕ
  | [] => []
  | x :: xs => x :: (cumulative xs).map (x + ·)

/-- Python slice `s[:-n]` on a string of characters. -/
def strDropRight (s : Str) (n : ℕ) : Str := s.take (s.length - n)

/-- `GbmInvasion.get_group` (GbmInvasion.py lines 895-904): the characters
of the identifier before its second underscore (before the first when there
is exactly one; the whole string when there is none). -/
def get_group (s : Str) : Str :=
  match s.findIdx? (· = '_') with
  | none => s
  | some p =>
      match (s.drop (p + 1)).findIdx? (· = '_') with
      | none => s.take p
      | some q => s.take (p + 1 + q)

/-- `GbmInvasion.mk_df` (GbmInvasion.py lines 911-913):
`pd.DataFrame.from_dict(dct, orient="index").transpose().reindex(columns=columns)`.
The result has exactly the requested columns in the requested order; a column
absent from the dict becomes an all-NaN (here: empty) column.  Trailing NaN
padding to the tallest column is elided. -/
def mk_df {α : Type} (dct : List (Str × List α)) (columns : List Str) :
    List (Str × List α) :=
  columns.map fun c => (c, (alookup dct c).getD [])

/-- Lift a NaN-free frame into the `Option`-cell representation. -/
def liftT (q : QDict) : Table := q.map fun kv => (kv.1, kv.2.map some)

/-- The column names of `df` whose name starts with `g`
(`[col for col in ... if col.startswith(group)]`). -/
def matchNames (names : List Str) (g : Str) : List Str :=
  names.filter fun c => g.isPrefixOf c

/-- The columns of `df` whose identifier starts with `g`. -/
def matchCols (df : Table) (g : Str) : Table :=
  df.filter fun col => g.isPrefixOf col.1

/-- The `collapsed_list` of `extract.comb_df_by_group` for one group: the
concatenation of the full value lists (`df[col].values.tolist()`, NaN cells
included) of every column whose name starts with the group name. -/
def combValue (df : Table) (g : Str) : List (Option ℚ) :=
  ((matchNames (df.map Prod.fst) g).map fun c => (alookup df c).getD []).flatten

/-- `extract.comb_df_by_group` (extract.py lines 39-55): for each group name
(first occurrence wins when duplicated), concatenate the full value lists of
every column whose name starts with the group name.  NaN cells of the source
columns are carried along unchanged (`df[col].values.tolist()` keeps them). -/
def comb_df_by_group (df : Table) (group_names : List Str) : Table :=
  group_names.foldl
    (fun acc g =>
      if acc.any (fun kv => kv.1 = g) then acc
      else acc ++ [(g, combValue df g)])
    []

/-- `GbmInvasion.mk_dfcomb` (GbmInvasion.py lines 924-941): for each group in
`dfcomb_cols`, select the columns of `df_cols` starting with that group, ravel
the corresponding sub-frame column-by-column, drop the NaN entries
(`[x for x in full if str(x) != "nan"]`), and rebuild a frame with `mk_df`
over the declared `groups_order`. -/
def mk_dfcomb (df_cols dfcomb_cols groups_order : List Str) (df : Table) : QDict :=
  let groupsdict : List (Str × List Str) :=
    dfcomb_cols.foldl (fun acc i => dictUpdate acc i (matchNames df_cols i)) []
  let gcomb : QDict :=
    groupsdict.map fun kv =>
      (kv.1, (((kv.2.map fun c => (alookup df c).getD []).flatten).reduceOption))
  mk_df gcomb groups_order

/-- The sample mean used by `pandas.Series.describe()`. -/
def mean (s : List ℚ) : ℚ := s.sum / s.length

/-- The `ddof = 1` sample variance underlying the `std` field of
`pandas.Series.describe()` (the square of the reported standard deviation). -/
def sampleVar (s : List ℚ) : ℚ :=
  (s.map fun x => (x - mean s) ^ 2).sum / ((s.length : ℚ) - 1)

/-- The fields of `GbmInvasion.my_describe` (GbmInvasion.py lines 943-952)
needed here: `description['mean']`, `description['std']` and the derived
`description['std3'] = description['mean'] + 3 * description['std']`.
The quartile-difference fields (`range`, `iqr`, `q1q4`, `q2q4`, `q3q4`) are
not used by any claim and are elided. -/
structure Describe where
  mean : ℝ
  std : ℝ
  std3 : ℝ

/-- `GbmInvasion.my_describe` restricted to the fields above. -/
noncomputable def my_describe (s : List ℚ) : Describe :=
  { mean := (mean s : ℝ)
    std := Real.sqrt ((sampleVar s : ℝ))
    std3 := (mean s : ℝ) + 3 * Real.sqrt ((sampleVar s : ℝ)) }

/-- Decidable rational form of the float comparison `value < std3` performed
by `GbmInvasion.rm_outliers`, where `std3 = mean + 3 * std` was computed by
`my_describe` on the original sample `s0`:  `x < mean + 3 * sqrt var` holds
iff `x < mean` or `(x - mean)^2 < 9 * var` (the bridge is proved below). -/
def ltStd3 (s0 : List ℚ) (x : ℚ) : Bool :=
  decide (x < mean s0) || decide ((x - mean s0) ^ 2 < 9 * sampleVar s0)

/-- `GbmInvasion.rm_outliers` (GbmInvasion.py lines 954-961) applied to one
sample: keep the values strictly below the `std3` bound of the *original*
sample `s0` (the bound is read from `self.dts_df_descriptives`, which was
computed on the unfiltered data, never from the argument). -/
def rm_outliers_with (s0 s : List ℚ) : List ℚ := s.filter (ltStd3 s0)

/-- `rm_outliers` on the original sample itself (the `dts_dict` entry whose
descriptives supplied the bound). -/
def rm_outliers (s : List ℚ) : List ℚ := rm_outliers_with s s

/-- Body of `GbmInvasion.mk_dict_greaterthan` (GbmInvasion.py lines 993-998)
for one dict entry: `len([i for i in value if i > threshold])`. -/
def count_above (s : List ℚ) (t : ℚ) : ℕ := (s.filter fun i => t < i).length

/-- Body of `GbmInvasion.mk_dict_lessthan` (GbmInvasion.py lines 1000-1005)
for one dict entry: `len([i for i in value if i < threshold])`. -/
def count_below (s : List ℚ) (t : ℚ) : ℕ := (s.filter fun i => i < t).length

/-- Modelled from the spec: the spec's `count_equal(s, t)` (§8, the partition
property) has no counterpart in the source; it is the count of values equal
to the threshold, the complement of the two strict counts. -/
def count_equal (s : List ℚ) (t : ℚ) : ℕ := (s.filter fun i => i = t).length

/-- `GbmInvasion.mk_dict_greaterthan` on a whole dict (fixed threshold
`self.arbitrary_thresholds[0]` passed as a parameter). -/
def mk_dict_greaterthan (t : ℚ) (dct : QDict) : List (Str × ℕ) :=
  dct.map fun kv => (kv.1, count_above kv.2 t)

/-- `GbmInvasion.mk_dict_lessthan` on a whole dict (threshold
`self.arbitrary_thresholds[1]`). -/
def mk_dict_lessthan (t : ℚ) (dct : QDict) : List (Str × ℕ) :=
  dct.map fun kv => (kv.1, count_below kv.2 t)

/-- `extract.count_values_above_threshold` (extract.py lines 58-67): one
count per column; a NaN cell compares false against the threshold and is
never counted. -/
def count_values_above_threshold (df : Table) (t : ℚ) : List (Str × ℕ) :=
  df.map fun col => (col.1, count_above col.2.reduceOption t)

/-- The dict built by `GbmInvasion.norm_to_avg2days` (GbmInvasion.py lines
1017-1025) before the final `mk_df`: for each baseline key and each column
whose `get_group` is a prefix of that key, store the column divided by the
baseline value (later matching keys overwrite earlier ones). -/
def norm_dict (avg : List (Str × ℚ)) (dfcomb : Table) :
    List (Str × List (Option ℚ)) :=
  avg.foldl
    (fun acc kv =>
      dfcomb.foldl
        (fun acc2 cv =>
          if (get_group cv.1).isPrefixOf kv.1 then
            dictUpdate acc2 cv.1 (cv.2.map (Option.map (· / kv.2)))
          else acc2)
        acc)
    []

/-- `GbmInvasion.norm_to_avg2days`: the normalized dict reshaped over the
declared group order. -/
def norm_to_avg2days (groups_order : List Str) (avg : List (Str × ℚ))
    (dfcomb : Table) : Table :=
  mk_df (norm_dict avg dfcomb) groups_order

/-- The per-file column transform of `GbmCellData.extract_dts_data`
(extract.py lines 362-370): drop the rows with negative values, then
subtract the column minimum (`data = data - data.min()`). -/
def extract_dts_column (raw : List ℚ) : List ℚ :=
  (raw.filter fun x => !decide (x < 0)).map
    (· - ((raw.filter fun x => !decide (x < 0)).min?.getD 0))

/-- The negative-value exclusion of `GbmInvasion.__init__` (GbmInvasion.py
lines 536-537): `[i for i in value if i >= 0]` applied to every dict entry,
leaving the kept values unchanged. -/
def filter_nonneg_dict (dct : QDict) : QDict :=
  dct.map fun kv => (kv.1, kv.2.filter fun i => decide (0 ≤ i))

/-- The cell-number frame of `GbmCellData` / `GbmInvasion` (`self.cn` /
`self.cn_df`): one row holding each column's non-missing count. -/
def cn_counts (df : Table) : List (Str × ℕ) :=
  df.map fun col => (col.1, col.2.reduceOption.length)

/-- The samples that `stats.anova` (stats.py lines 19-36) feeds to
`scipy.stats.f_oneway`: `df.values.tolist()` yields the *rows* of the frame
(padded with NaN to the rectangular height), and each row is then stripped
of its NaN entries. -/
def anova_samples (df : Table) : List (List ℚ) :=
  let h := (df.map fun c => c.2.length).foldr max 0
  (List.range h).map fun i => df.filterMap fun c => (c.2.get? i).getD none

/-- The per-group samples the spec (and the docstring of `stats.anova`)
prescribe: one NaN-stripped sample per group column. -/
def column_samples (df : Table) : List (List ℚ) :=
  df.map fun c => c.2.reduceOption

/-- Python `s.split(sep)` for a single-character separator: adjacent
separators and separators at either end produce empty components. -/
def splitOnChar (sep : Char) : Str → List Str
  | [] => [[]]
  | c :: rest =>
      let r := splitOnChar sep rest
      if c = sep then [] :: r
      else
        match r with
        | h :: t => (c :: h) :: t
        | [] => [[c]]

/-- The relevance filter of `extract.match_files_with_org_id` (extract.py
lines 13-16): keep a path iff some separator-split component is exactly one
of the group-dict keys. -/
def hasGroupKey (groups : List (Str × Str)) (sep : Char) (f : Str) : Bool :=
  (splitOnChar sep f).any fun comp => groups.any fun kv => kv.1 = comp

/-- One pass of the parse loop of `match_files_with_org_id` (extract.py lines
23-29) over the components of one path, threading the python local variables
`org` and `group` (which persist across files in the source): the last
component starting with `"org"` rebinds `org`; the last component equal to a
group-dict key rebinds `group` to the dict's value. -/
def parseStep (groups : List (Str × Str)) (comps : List Str)
    (st : Option Str × Option Str) : Option Str × Option Str :=
  comps.foldl
    (fun s comp =>
      let s1 :=
        if (['o', 'r', 'g'] : Str).isPrefixOf comp then (some comp, s.2) else s
      if (['g', 'r', 'o', 'u', 'p'] : Str).isPrefixOf comp then
        match alookup groups comp with
        | some gname => (s1.1, some gname)
        | none => s1
      else s1)
    st

/-- The loop of `match_files_with_org_id` over the kept files: build the
`full path -> group_sep_org` dict, failing (python `UnboundLocalError`) when
the identifier f-string reads a still-unbound `org` or `group`. -/
def matchFilesGo (groups : List (Str × Str)) (sep : Char) :
    List Str → Option Str × Option Str → List (Str × Str) →
    Except Unit (List (Str × Str))
  | [], _, acc => .ok acc
  | f :: rest, st, acc =>
      let st' := parseStep groups (splitOnChar sep f) st
      match st' with
      | (some org, some grp) =>
          let acc' :=
            if (alookup acc f).isSome then acc
            else acc ++ [(f, grp ++ [sep] ++ org)]
          matchFilesGo groups sep rest st' acc'
      | _ => .error ()

/-- `extract.match_files_with_org_id` (extract.py lines 9-36) over a given
list of globbed paths. -/
def match_files_with_org_id (files : List Str) (sep : Char)
    (groups : List (Str × Str)) : Except Unit (List (Str × Str)) :=
  matchFilesGo groups sep (files.filter (hasGroupKey groups sep)) (none, none) []

/-- Python `sub in s` (substring test). -/
def strContains (s sub : Str) : Bool := decide (sub <:+: s)

/-- Python `int(s)` restricted to plain digit strings: `none` (a raised
`ValueError`) on the empty string or any non-digit character. -/
def parseNatOpt (s : Str) : Option ℕ :=
  if s ≠ [] ∧ s.all Char.isDigit then
    some (s.foldl (fun n c => 10 * n + (c.toNat - '0'.toNat)) 0)
  else none

/-- The scan of `data.Data.__init__` (data.py lines 28-37) over the folder
components after the first: remember the last component containing
`"group"` and the last containing `"org"` (a component containing both only
rebinds the group, because of the `continue`). -/
def dataScanFrom (s : Str × Str) (comps : List Str) : Str × Str :=
  comps.foldl
    (fun (s : Str × Str) comp =>
      if strContains comp ['g', 'r', 'o', 'u', 'p'] then (comp, s.2)
      else if strContains comp ['o', 'r', 'g'] then (s.1, comp)
      else s)
    s

/-- `data.Data.__init__` (data.py lines 22-40) restricted to the identity
parse: split the folder name on `"_"`, scan the components after the first
(the date component, whose `strptime` parse is elided), then parse
`group_str[5:]` and `org_str[3:]` as integers — `int("")` raises when
either category never matched. -/
def parse_data_folder (name : Str) : Except Unit (ℕ × ℕ) :=
  let scan := dataScanFrom ([], []) ((splitOnChar '_' name).drop 1)
  match parseNatOpt (scan.1.drop 5), parseNatOpt (scan.2.drop 3) with
  | some g, some o => .ok (g, o)
  | _, _ => .error ()

/-- The per-replicate group counts of `integrate.GbmCellData.__init__`
(integrate.py lines 72-85): deduplicate the `Org` column, map each organoid
id to its group (`org[:-5]`), and count organoids per group. -/
def expCounts (rep : List Str) : List (Str × ℕ) :=
  let gs := (pyDedupAll rep).map fun o => strDropRight o 5
  (pyDedupAll gs).map fun g => (g, gs.count g)

/-- Python `int(org[-1:])` for a digit-final identifier. -/
def lastDigitVal (s : Str) : ℕ :=
  ((s.getLast?).map fun c => c.toNat - '0'.toNat).getD 0

/-- The renumbering of one organoid id in replicate `n` (1-based, `n ≥ 2`)
of `integrate.GbmCellData.__init__` (integrate.py lines 87-111): collect the
group's counts over the replicates seen so far (skipping replicates without
the group), take the `(n-2)`-th entry of the running cumulative sums as the
offset, and rewrite the id as `org[:-1]` followed by `int(org[-1:]) +
offset`. -/
def renumberOrg (byExpAll : List (List (Str × ℕ))) (n : ℕ) (org : Str) : Str :=
  let g := strDropRight org 5
  let cum := cumulative (byExpAll.filterMap fun ec => alookup ec g)
  let offset := cum.getD (n - 2) 0
  strDropRight org 1 ++ (Nat.repr (lastDigitVal org + offset)).toList

/-- The whole renumbering pass over the replicates' `Org` columns: replicate
1 is kept as is; replicate `i+1` is renumbered against the counts of
replicates `1..i+1`. -/
def mergeRenumber (reps : List (List Str)) : List (List Str) :=
  (List.range reps.length).map fun i =>
    if i = 0 then reps.getD i []
    else (reps.getD i []).map (renumberOrg ((reps.take (i + 1)).map expCounts) (i + 1))

section Lemmas

variable {α : Type}

theorem alookup_dictUpdate_self (d : List (Str × α)) (k : Str) (v : α) :
    alookup (dictUpdate d k v) k = some v := by
  induction d with
  | nil => simp [dictUpdate, alookup]
  | cons kv rest ih =>
      by_cases h : kv.1 = k
      · simp [dictUpdate, alookup, h]
      · simpa [dictUpdate, alookup, h] using ih

theorem alookup_dictUpdate_ne (d : List (Str × α)) (k k' : Str) (v : α)
    (h : k ≠ k') : alookup (dictUpdate d k v) k' = alookup d k' := by
  induction d with
  | nil => simp [dictUpdate, alookup, h]
  | cons kv rest ih =>
      by_cases hk : kv.1 = k
      · have h2 : kv.1 ≠ k' := by rw [hk]; exact h
        simp [dictUpdate, alookup, hk, h, h2]
      · by_cases hk' : kv.1 = k'
        · simp [dictUpdate, alookup, hk, hk', Ne.symm h]
        · simpa [dictUpdate, alookup, hk, hk'] using ih

theorem alookup_append (l₁ l₂ : List (Str × α)) (k : Str) :
    alookup (l₁ ++ l₂) k =
      match alookup l₁ k with
      | some v => some v
      | none => alookup l₂ k := by
  induction l₁ with
  | nil => simp [alookup]
  | cons kv rest ih =>
      by_cases h : kv.1 = k
      · simp [alookup, h]
      · simpa [alookup, h] using ih

theorem alookup_any_eq_isSome (d : List (Str × α)) (k : Str) :
    (d.any fun kv => kv.1 = k) = (alookup d k).isSome := by
  induction d with
  | nil => simp [alookup]
  | cons kv rest ih =>
      by_cases h : kv.1 = k
      · simp [alookup, h]
      · simpa [alookup, h] using ih

theorem alookup_mk_df {dct : List (Str × List α)} {cols : List Str} {c : Str}
    (h : c ∈ cols) :
    alookup (mk_df dct cols) c = some ((alookup dct c).getD []) := by
  induction cols with
  | nil => cases h
  | cons c₀ rest ih =>
      rcases List.mem_cons.mp h with h | h
      · subst h; simp [mk_df, alookup]
      · by_cases hc : c₀ = c
        · subst hc; simp [mk_df, alookup]
        · simpa [mk_df, alookup, hc] using ih h

theorem alookup_map_snd (l : List (Str × α)) {β : Type} (f : Str → α → β)
    (k : Str) :
    alookup (l.map fun kv => (kv.1, f kv.1 kv.2)) k =
      (alookup l k).map (f k) := by
  induction l with
  | nil => simp [alookup]
  | cons kv rest ih =>
      by_cases h : kv.1 = k
      · subst h; simp [alookup]
      · simpa [alookup, h] using ih

/-- A fold of python-dict updates whose stored value depends only on the key:
any key occurring in the iterated list ends up bound to its value. -/
theorem alookup_foldl_dictUpdate (h : Str → α) (cols : List Str)
    (init : List (Str × α)) (g : Str) :
    alookup (cols.foldl (fun acc i => dictUpdate acc i (h i)) init) g =
      if g ∈ cols then some (h g) else alookup init g := by
  induction cols generalizing init with
  | nil => simp
  | cons c rest ih =>
      simp only [List.foldl_cons]
      rw [ih]
      by_cases hr : g ∈ rest
      · simp [hr, List.mem_cons_of_mem]
      · by_cases hc : c = g
        · subst hc
          simp [hr, alookup_dictUpdate_self]
        · have hupd : alookup (dictUpdate init c (h c)) g = alookup init g :=
            alookup_dictUpdate_ne _ _ _ _ hc
          have hmem : g ∉ c :: rest := by
            simp [List.mem_cons, Ne.symm hc, hr]
          simp [hr, hmem, hupd]

/-- With unique column names, looking the matching names back up in the frame
returns exactly the matching columns' value lists. -/
theorem matchNames_alookup {df : Table} (hnd : (df.map Prod.fst).Nodup)
    (g : Str) :
    (matchNames (df.map Prod.fst) g).map (fun c => (alookup df c).getD []) =
      (matchCols df g).map Prod.snd := by
  induction df with
  | nil => simp [matchNames, matchCols]
  | cons col rest ih =>
      simp only [List.map_cons, List.nodup_cons] at hnd
      have hself : (alookup (col :: rest) col.1).getD ([] : List (Option ℚ)) =
          col.2 := by
        simp [alookup]
      have htail :
          (matchNames (rest.map Prod.fst) g).map
              (fun c => (alookup (col :: rest) c).getD []) =
            (matchCols rest g).map Prod.snd := by
        rw [← ih hnd.2]
        apply List.map_congr_left
        intro c hc
        have hc' : c ∈ rest.map Prod.fst := List.mem_of_mem_filter hc
        have hne : ¬col.1 = c := fun h => hnd.1 (h ▸ hc')
        simp [alookup, hne]
      cases hm : g.isPrefixOf col.1
      · simpa only [matchNames, matchCols, List.map_cons, List.filter_cons, hm,
          Bool.false_eq_true, if_false] using htail
      · simp only [matchNames, matchCols, List.map_cons, List.filter_cons, hm,
          if_true, List.map_cons]
        simp only [matchNames, matchCols] at htail
        rw [hself, htail]

theorem alookup_map_snd_const {β : Type} (l : List (Str × α)) (f : α → β)
    (k : Str) :
    alookup (l.map fun kv => (kv.1, f kv.2)) k = (alookup l k).map f := by
  induction l with
  | nil => simp [alookup]
  | cons kv rest ih =>
      by_cases h : kv.1 = k
      · subst h; simp [alookup]
      · simpa [alookup, h] using ih

/-- Lookup in the `comb_df_by_group` fold: starting from any accumulator,
an already-present key keeps its value, and a fresh key of the iterated list
gets `combValue`. -/
theorem comb_fold_lookup (df : Table) (gnames : List Str) (acc : Table)
    (g : Str) :
    alookup
        (gnames.foldl
          (fun acc g =>
            if acc.any (fun kv => kv.1 = g) then acc
            else acc ++ [(g, combValue df g)])
          acc) g =
      match alookup acc g with
      | some v => some v
      | none => if g ∈ gnames then some (combValue df g) else none := by
  induction gnames generalizing acc with
  | nil => cases h : alookup acc g <;> simp [h]
  | cons c rest ih =>
      simp only [List.foldl_cons]
      rw [alookup_any_eq_isSome]
      cases hc : alookup acc c with
      | some w =>
          simp only [Option.isSome_some, if_true]
          rw [ih]
          cases hg : alookup acc g with
          | some v => simp
          | none =>
              have hne : g ≠ c := fun he => by
                rw [he, hc] at hg; cases hg
              simp [List.mem_cons, hne]
      | none =>
          simp only [Option.isSome_none, Bool.false_eq_true, if_false]
          rw [ih]
          cases hg : alookup acc g with
          | some v => simp [alookup_append, hg]
          | none =>
              by_cases hgc : c = g
              · subst hgc
                simp [alookup_append, hg, alookup]
              · have : alookup (acc ++ [(c, combValue df c)]) g = none := by
                  simp [alookup_append, hg, alookup, hgc]
                simp [this, List.mem_cons, Ne.symm hgc]

/-- Lookup in `comb_df_by_group`: every requested group name is mapped to its
concatenated (NaN-preserving) column values. -/
theorem comb_df_by_group_alookup (df : Table) (gnames : List Str) (g : Str)
    (h : g ∈ gnames) :
    alookup (comb_df_by_group df gnames) g = some (combValue df g) := by
  rw [comb_df_by_group, comb_fold_lookup]
  simp [alookup, h]

/-- Lookup in `mk_dfcomb`: a group present both in `dfcomb_cols` and in
`groups_order` is mapped to the NaN-stripped concatenation of the columns of
`df_cols` starting with it. -/
theorem mk_dfcomb_alookup (df : Table) (df_cols dfcomb_cols groups_order : List Str)
    (g : Str) (h1 : g ∈ dfcomb_cols) (h2 : g ∈ groups_order) :
    alookup (mk_dfcomb df_cols dfcomb_cols groups_order df) g =
      some ((((matchNames df_cols g).map
        fun c => (alookup df c).getD []).flatten).reduceOption) := by
  rw [mk_dfcomb]
  rw [alookup_mk_df h2]
  rw [alookup_map_snd_const
    (dfcomb_cols.foldl (fun acc i => dictUpdate acc i (matchNames df_cols i)) [])
    (fun cols => ((cols.map fun c => (alookup df c).getD []).flatten).reduceOption)
    g]
  rw [alookup_foldl_dictUpdate (fun i => matchNames df_cols i)]
  simp [h1]

theorem reduceOption_flatten (l : List (List (Option α))) :
    l.flatten.reduceOption = (l.map List.reduceOption).flatten := by
  induction l with
  | nil => simp
  | cons x rest ih => simp [List.reduceOption_append, ih]

end Lemmas

/-- C1 (amended): for every wide table with distinct column names and every
declared group order, `mk_dfcomb` maps each requested group `g` to exactly
the concatenation, in per-group column order, of the non-missing value
sequences of the columns whose identifier starts with `g`, and the combined
column's length is the sum of the matching columns' non-missing counts.
`comb_df_by_group` maps `g` to the same concatenation with the missing
entries still in place: its non-missing content and non-missing count obey
the claim, but the missing entries are not dropped from the stored column. -/
theorem claim1_combine_by_group :
    (∀ (df : Table) (group_names : List Str) (g : Str),
        (df.map Prod.fst).Nodup → g ∈ group_names →
        ∃ raw,
          alookup (comb_df_by_group df group_names) g = some raw ∧
          raw = ((matchCols df g).map Prod.snd).flatten ∧
          raw.reduceOption =
            ((matchCols df g).map fun col => col.2.reduceOption).flatten ∧
          raw.reduceOption.length =
            ((matchCols df g).map fun col => col.2.reduceOption.length).sum)
  ∧ (∀ (df : Table) (dfcomb_cols groups_order : List Str) (g : Str),
        (df.map Prod.fst).Nodup → g ∈ dfcomb_cols → g ∈ groups_order →
        ∃ comb,
          alookup (mk_dfcomb (df.map Prod.fst) dfcomb_cols groups_order df) g =
            some comb ∧
          comb = ((matchCols df g).map fun col => col.2.reduceOption).flatten ∧
          comb.length =
            ((matchCols df g).map fun col => col.2.reduceOption.length).sum) := by
  constructor
  · intro df gnames g hnd hg
    refine ⟨combValue df g, comb_df_by_group_alookup df gnames g hg, ?_, ?_, ?_⟩
    · rw [combValue, matchNames_alookup hnd]
    · rw [combValue, matchNames_alookup hnd, reduceOption_flatten, List.map_map]
      rfl
    · rw [combValue, matchNames_alookup hnd, reduceOption_flatten, List.map_map,
        List.length_flatten, List.map_map]
      rfl
  · intro df dfcomb_cols groups_order g hnd h1 h2
    refine ⟨_, mk_dfcomb_alookup df _ dfcomb_cols groups_order g h1 h2, ?_, ?_⟩
    · rw [matchNames_alookup hnd, reduceOption_flatten, List.map_map]
      rfl
    · rw [matchNames_alookup hnd, reduceOption_flatten, List.map_map,
        List.length_flatten, List.map_map]
      rfl

/-- C1, the claim exactly as stated, is false for `comb_df_by_group`: with
group `"A"` owning columns `"A1" = [1, NaN]` and `"A2" = [2, 3]`, the
combined column keeps the NaN in place and has length 4, not the sum 3 of
the non-missing counts. -/
theorem claim1_counterexample :
    alookup
        (comb_df_by_group
          [(['A', '1'], [some 1, none]), (['A', '2'], [some 2, some 3])]
          [['A']])
        ['A'] =
      some [some (1 : ℚ), none, some 2, some 3] ∧
    ([some (1 : ℚ), none, some 2, some 3] : List (Option ℚ)).length ≠
      (([(['A', '1'], [some (1 : ℚ), none]),
         (['A', '2'], [some 2, some 3])] : Table).map
        fun col => col.2.reduceOption.length).sum := by
  constructor
  · rfl
  · decide

/-- C1 witness: the amended theorem applied to the concrete two-column,
one-group table used in the counterexample. -/
theorem claim1_witness :
    ((([(['A', '1'], [some (1 : ℚ), none]),
        (['A', '2'], [some 2, some 3])] : Table).map Prod.fst).Nodup ∧
      (['A'] : Str) ∈ ([['A']] : List Str)) ∧
    (∃ raw,
        alookup
            (comb_df_by_group
              [(['A', '1'], [some 1, none]), (['A', '2'], [some 2, some 3])]
              [['A']])
            ['A'] = some raw ∧
        raw =
          ((matchCols
            [(['A', '1'], [some 1, none]), (['A', '2'], [some 2, some 3])]
            ['A']).map Prod.snd).flatten ∧
        raw.reduceOption =
          ((matchCols
            [(['A', '1'], [some 1, none]), (['A', '2'], [some 2, some 3])]
            ['A']).map fun col => col.2.reduceOption).flatten ∧
        raw.reduceOption.length =
          ((matchCols
            [(['A', '1'], [some 1, none]), (['A', '2'], [some 2, some 3])]
            ['A']).map fun col => col.2.reduceOption.length).sum) ∧
    (∃ comb,
        alookup
            (mk_dfcomb
              (([(['A', '1'], [some (1 : ℚ), none]),
                 (['A', '2'], [some 2, some 3])] : Table).map Prod.fst)
              [['A']] [['A']]
              [(['A', '1'], [some 1, none]), (['A', '2'], [some 2, some 3])])
            ['A'] = some comb ∧
        comb =
          ((matchCols
            [(['A', '1'], [some 1, none]), (['A', '2'], [some 2, some 3])]
            ['A']).map fun col => col.2.reduceOption).flatten ∧
        comb.length =
          ((matchCols
            [(['A', '1'], [some 1, none]), (['A', '2'], [some 2, some 3])]
            ['A']).map fun col => col.2.reduceOption.length).sum) :=
  ⟨⟨by decide, by decide⟩,
    claim1_combine_by_group.1
      [(['A', '1'], [some 1, none]), (['A', '2'], [some 2, some 3])]
      [['A']] ['A'] (by decide) (by decide),
    claim1_combine_by_group.2
      [(['A', '1'], [some 1, none]), (['A', '2'], [some 2, some 3])]
      [['A']] [['A']] ['A'] (by decide) (by decide) (by decide)⟩

/-- C2, as stated, is false for `GbmCellData.extract_dts_data`: the kept
values are not left unchanged — after dropping the negatives the column is
shifted by its own minimum, so the raw sequence `[1, -2, 3]` yields the
column `[0, 2]`, not `[1, 3]`. -/
theorem claim2_counterexample :
    extract_dts_column [1, -2, 3] = [0, 2] ∧
    ([0, 2] : List ℚ) ≠ [1, 3] := by
  constructor
  · have h1 : ([1, -2, 3] : List ℚ).filter (fun x => !decide (x < 0)) = [1, 3] := by
      decide
    have h2 : ([1, 3] : List ℚ).min? = some 1 := by decide
    simp only [extract_dts_column, h1, h2, Option.getD_some, List.map_cons,
      List.map_nil]
    norm_num
  · decide

/-- C2 (amended): in the `GbmInvasion` pipeline the negative-value exclusion
removes exactly the negative raw values and leaves the rest unchanged: for
`ctrl_day_org1 = [1, -2, 3]` and `ctrl_day_org2 = [5, -1, 2]` the wide table
has columns `[1, 3]` and `[5, 2]`, the cell counts are 2 and 2, and the
combined column for group `ctrl_day` is `[1, 3, 5, 2]` in organoid order.
The `GbmCellData` extractor additionally shifts each column by its own
minimum, turning the same inputs into `[0, 2]` and `[3, 0]`. -/
theorem claim2_negative_exclusion :
    filter_nonneg_dict
        [(("ctrl_day_org1".toList), [1, -2, 3]),
         (("ctrl_day_org2".toList), [5, -1, 2])] =
      [(("ctrl_day_org1".toList), [1, 3]), (("ctrl_day_org2".toList), [5, 2])] ∧
    mk_df
        (filter_nonneg_dict
          [(("ctrl_day_org1".toList), [1, -2, 3]),
           (("ctrl_day_org2".toList), [5, -1, 2])])
        [("ctrl_day_org1".toList), ("ctrl_day_org2".toList)] =
      [(("ctrl_day_org1".toList), [1, 3]), (("ctrl_day_org2".toList), [5, 2])] ∧
    cn_counts
        (liftT
          [(("ctrl_day_org1".toList), [1, 3]), (("ctrl_day_org2".toList), [5, 2])]) =
      [(("ctrl_day_org1".toList), 2), (("ctrl_day_org2".toList), 2)] ∧
    alookup
        (mk_dfcomb
          [("ctrl_day_org1".toList), ("ctrl_day_org2".toList)]
          [("ctrl_day".toList)] [("ctrl_day".toList)]
          (liftT
            [(("ctrl_day_org1".toList), [1, 3]),
             (("ctrl_day_org2".toList), [5, 2])]))
        ("ctrl_day".toList) =
      some [1, 3, 5, 2] ∧
    extract_dts_column [1, -2, 3] = [0, 2] ∧
    extract_dts_column [5, -1, 2] = [3, 0] := by
  refine ⟨by decide, by decide, by decide, by decide, ?_, ?_⟩
  · have h1 : ([1, -2, 3] : List ℚ).filter (fun x => !decide (x < 0)) = [1, 3] := by
      decide
    have h2 : ([1, 3] : List ℚ).min? = some 1 := by decide
    simp only [extract_dts_column, h1, h2, Option.getD_some, List.map_cons,
      List.map_nil]
    norm_num
  · have h1 : ([5, -1, 2] : List ℚ).filter (fun x => !decide (x < 0)) = [5, 2] := by
      decide
    have h2 : ([5, 2] : List ℚ).min? = some 2 := by decide
    simp only [extract_dts_column, h1, h2, Option.getD_some, List.map_cons,
      List.map_nil]
    norm_num

/-- `alookup` only depends on the underlying key-value mapping: permuting a
dict with distinct keys does not change any lookup. -/
theorem alookup_perm {α : Type} {l l' : List (Str × α)} (h : l.Perm l')
    (hnd : (l.map Prod.fst).Nodup) (k : Str) : alookup l k = alookup l' k := by
  induction h with
  | nil => rfl
  | cons x h ih =>
      simp only [List.map_cons, List.nodup_cons] at hnd
      by_cases hx : x.1 = k <;> simp [alookup, hx, ih hnd.2]
  | swap x y l =>
      simp only [List.map_cons, List.nodup_cons, List.mem_cons] at hnd
      by_cases hy : y.1 = k
      · have hx : x.1 ≠ k := fun he => hnd.1 (Or.inl (by rw [he, hy]))
        simp [alookup, hy, hx]
      · by_cases hx : x.1 = k <;> simp [alookup, hx, hy]
  | trans h₁ h₂ ih₁ ih₂ =>
      have hnd₂ := ((h₁.map Prod.fst).nodup_iff).mp hnd
      rw [ih₁ hnd, ih₂ hnd₂]

/-- C3, as stated, is false: with an identifier duplicated in the supplied
column order, the built table repeats the column instead of keeping only the
first occurrence. -/
theorem claim3_counterexample :
    mk_df [(("a".toList), [(1 : ℚ)])] [("a".toList), ("a".toList)] =
      [(("a".toList), [1]), (("a".toList), [1])] ∧
    (mk_df [(("a".toList), [(1 : ℚ)])] [("a".toList), ("a".toList)]).length ≠
      (pyDedupAll [("a".toList), ("a".toList)]).length := by
  constructor
  · rfl
  · decide

/-- C3 (amended): the wide table built by `mk_df` has exactly the supplied
column order — including one column per occurrence of a duplicated
identifier, each carrying the same mapped sequence — and is independent of
the order in which the value mapping was populated. -/
theorem claim3_mk_df_order (dct dct' : QDict) (columns : List Str)
    (hperm : dct.Perm dct') (hnd : (dct.map Prod.fst).Nodup) :
    (mk_df dct columns).map Prod.fst = columns ∧
    mk_df dct columns = mk_df dct' columns := by
  constructor
  · unfold mk_df
    rw [List.map_map]
    rw [show (Prod.fst ∘ fun c => (c, (alookup dct c).getD ([] : List ℚ))) = id
      from rfl]
    exact List.map_id columns
  · unfold mk_df
    apply List.map_congr_left
    intro c _
    rw [alookup_perm hperm hnd c]

/-- C3 witness: the amended theorem applied to a two-entry dict, its
reversal, and a column order with a duplicate and a missing identifier. -/
theorem claim3_witness :
    (([(("a".toList), [(1 : ℚ)]), (("b".toList), [2])] : QDict).Perm
        [(("b".toList), [2]), (("a".toList), [1])] ∧
      (([(("a".toList), [(1 : ℚ)]), (("b".toList), [2])] : QDict).map
        Prod.fst).Nodup) ∧
    (mk_df [(("a".toList), [(1 : ℚ)]), (("b".toList), [2])]
        [("b".toList), ("a".toList), ("a".toList), ("c".toList)]).map Prod.fst =
      [("b".toList), ("a".toList), ("a".toList), ("c".toList)] ∧
    mk_df [(("a".toList), [(1 : ℚ)]), (("b".toList), [2])]
        [("b".toList), ("a".toList), ("a".toList), ("c".toList)] =
      mk_df [(("b".toList), [(2 : ℚ)]), (("a".toList), [1])]
        [("b".toList), ("a".toList), ("a".toList), ("c".toList)] :=
  ⟨⟨by decide, by decide⟩,
    claim3_mk_df_order
      [(("a".toList), [(1 : ℚ)]), (("b".toList), [2])]
      [(("b".toList), [2]), (("a".toList), [1])]
      [("b".toList), ("a".toList), ("a".toList), ("c".toList)]
      (by decide) (by decide)⟩

/-- C7: the strict threshold counts partition every finite sample —
`count_above + count_below + count_equal` equals the sample length for
every sample and threshold. -/
theorem claim7_counts_partition (s : List ℚ) (t : ℚ) :
    count_above s t + count_below s t + count_equal s t = s.length := by
  induction s with
  | nil => rfl
  | cons x rest ih =>
      simp only [count_above, count_below, count_equal] at ih ⊢
      rcases lt_trichotomy t x with h | h | h
      · have e1 : (decide (t < x)) = true := decide_eq_true h
        have e2 : (decide (x < t)) = false := decide_eq_false (not_lt_of_gt h)
        have e3 : (decide (x = t)) = false :=
          decide_eq_false fun he => absurd (he ▸ h) (lt_irrefl x)
        simp [List.filter_cons, e1, e2, e3]
        omega
      · have e1 : (decide (t < x)) = false :=
          decide_eq_false (by rw [h]; exact lt_irrefl x)
        have e2 : (decide (x < t)) = false :=
          decide_eq_false (by rw [h]; exact lt_irrefl x)
        have e3 : (decide (x = t)) = true := decide_eq_true h.symm
        simp [List.filter_cons, e1, e2, e3]
        omega
      · have e1 : (decide (t < x)) = false := decide_eq_false (not_lt_of_gt h)
        have e2 : (decide (x < t)) = true := decide_eq_true h
        have e3 : (decide (x = t)) = false :=
          decide_eq_false fun he => absurd (he ▸ h) (lt_irrefl x)
        simp [List.filter_cons, e1, e2, e3]
        omega

/-- C10: after the `GbmCellData` distance extraction, a column with at least
one non-negative raw value is exactly the negative-filtered sequence shifted
by its own minimum, every stored value is non-negative, and the minimum 0 is
attained. -/
theorem claim10_extract_min_zero (raw : List ℚ)
    (h : raw.filter (fun x => !decide (x < 0)) ≠ []) :
    extract_dts_column raw =
      (raw.filter fun x => !decide (x < 0)).map
        (· - ((raw.filter fun x => !decide (x < 0)).min?.getD 0)) ∧
    (0 : ℚ) ∈ extract_dts_column raw ∧
    ∀ x ∈ extract_dts_column raw, 0 ≤ x := by
  refine ⟨rfl, ?_, ?_⟩
  · cases hm : (raw.filter fun x => !decide (x < 0)).min? with
    | none => exact absurd (List.min?_eq_none_iff.mp hm) h
    | some m =>
        have hmm :=
          (@List.min?_eq_some_iff ℚ m _ _ ⟨fun h1 h2 => le_antisymm h1 h2⟩
            (fun a => le_refl a) (fun a b => min_choice a b)
            (fun a b c => le_min_iff) _).mp hm
        refine List.mem_map.mpr ⟨m, hmm.1, ?_⟩
        rw [hm]
        simp
  · intro x hx
    obtain ⟨y, hy, rfl⟩ := List.mem_map.mp hx
    cases hm : (raw.filter fun x => !decide (x < 0)).min? with
    | none => exact absurd (List.min?_eq_none_iff.mp hm) h
    | some m =>
        have hmm :=
          (@List.min?_eq_some_iff ℚ m _ _ ⟨fun h1 h2 => le_antisymm h1 h2⟩
            (fun a => le_refl a) (fun a b => min_choice a b)
            (fun a b c => le_min_iff) _).mp hm
        simpa using hmm.2 y hy

/-- C10 witness: the theorem applied to the raw sequence `[1, -2, 3]`. -/
theorem claim10_witness :
    (([1, -2, 3] : List ℚ).filter (fun x => !decide (x < 0)) ≠ []) ∧
    (extract_dts_column [1, -2, 3] =
        (([1, -2, 3] : List ℚ).filter fun x => !decide (x < 0)).map
          (· - ((([1, -2, 3] : List ℚ).filter fun x => !decide (x < 0)).min?.getD 0)) ∧
      (0 : ℚ) ∈ extract_dts_column [1, -2, 3] ∧
      ∀ x ∈ extract_dts_column [1, -2, 3], 0 ≤ x) :=
  ⟨by decide, claim10_extract_min_zero [1, -2, 3] (by decide)⟩

theorem sampleVar_nonneg (s : List ℚ) (h : 2 ≤ s.length) : 0 ≤ sampleVar s := by
  unfold sampleVar
  apply div_nonneg
  · apply List.sum_nonneg
    intro x hx
    obtain ⟨y, _, rfl⟩ := List.mem_map.mp hx
    positivity
  · have h2 : (2 : ℚ) ≤ (s.length : ℚ) := by exact_mod_cast h
    linarith

/-- The decidable rational test `ltStd3` coincides with the float comparison
`value < std3` of `rm_outliers`, where `std3 = mean + 3 * std` comes from
`my_describe` on the original sample. -/
theorem ltStd3_iff_real (s : List ℚ) (h : 2 ≤ s.length) (x : ℚ) :
    ltStd3 s x = true ↔ ((x : ℝ) < (my_describe s).std3) := by
  have hv : (0 : ℝ) ≤ ((sampleVar s : ℚ) : ℝ) := by
    exact_mod_cast sampleVar_nonneg s h
  have hsqrt9 :
      Real.sqrt (9 * ((sampleVar s : ℚ) : ℝ)) =
        3 * Real.sqrt ((sampleVar s : ℚ) : ℝ) := by
    rw [show (9 : ℝ) * ((sampleVar s : ℚ) : ℝ) = 3 ^ 2 * ((sampleVar s : ℚ) : ℝ)
      by ring]
    rw [Real.sqrt_mul (by positivity), Real.sqrt_sq (by norm_num)]
  have hsn : (0 : ℝ) ≤ Real.sqrt ((sampleVar s : ℚ) : ℝ) := Real.sqrt_nonneg _
  unfold ltStd3 my_describe
  simp only [Bool.or_eq_true, decide_eq_true_eq]
  constructor
  · rintro (hlt | hsq)
    · have hx : (x : ℝ) < ((mean s : ℚ) : ℝ) := by exact_mod_cast hlt
      linarith
    · by_cases hxm : (x : ℝ) < ((mean s : ℚ) : ℝ)
      · linarith
      · push_neg at hxm
        have hsq' : ((x : ℝ) - ((mean s : ℚ) : ℝ)) ^ 2 <
            9 * ((sampleVar s : ℚ) : ℝ) := by exact_mod_cast hsq
        have hlt9 : (x : ℝ) - ((mean s : ℚ) : ℝ) <
            Real.sqrt (9 * ((sampleVar s : ℚ) : ℝ)) :=
          (Real.lt_sqrt (sub_nonneg.mpr hxm)).mpr hsq'
        rw [hsqrt9] at hlt9
        linarith
  · intro hx
    by_cases hxm : (x : ℝ) < ((mean s : ℚ) : ℝ)
    · left
      exact_mod_cast hxm
    · right
      push_neg at hxm
      have hlt9 : (x : ℝ) - ((mean s : ℚ) : ℝ) <
          Real.sqrt (9 * ((sampleVar s : ℚ) : ℝ)) := by
        rw [hsqrt9]
        linarith
      have hsq' : ((x : ℝ) - ((mean s : ℚ) : ℝ)) ^ 2 <
          9 * ((sampleVar s : ℚ) : ℝ) :=
        (Real.lt_sqrt (sub_nonneg.mpr hxm)).mp hlt9
      exact_mod_cast hsq'

/-- C4: `rm_outliers` keeps exactly the values strictly below the bound
`std3 = mean + 3 * stdev` computed by `my_describe` on the original
(unfiltered) sample, and filtering the filtered sample again with that same
original bound is the identity. -/
theorem claim4_rm_outliers (s : List ℚ) (h : 2 ≤ s.length) :
    rm_outliers s = s.filter (ltStd3 s) ∧
    (∀ x : ℚ, ltStd3 s x = true ↔ ((x : ℝ) < (my_describe s).std3)) ∧
    (my_describe s).std3 = (my_describe s).mean + 3 * (my_describe s).std ∧
    rm_outliers_with s (rm_outliers s) = rm_outliers s := by
  refine ⟨rfl, fun x => ltStd3_iff_real s h x, rfl, ?_⟩
  unfold rm_outliers rm_outliers_with
  rw [List.filter_filter]
  simp

/-- C4 witness: the theorem applied to the four-element sample
`[0, 0, 0, 10]`. -/
theorem claim4_witness :
    2 ≤ ([0, 0, 0, 10] : List ℚ).length ∧
    (rm_outliers [0, 0, 0, 10] =
        ([0, 0, 0, 10] : List ℚ).filter (ltStd3 [0, 0, 0, 10]) ∧
      (∀ x : ℚ, ltStd3 [0, 0, 0, 10] x = true ↔
          ((x : ℝ) < (my_describe [0, 0, 0, 10]).std3)) ∧
      (my_describe [0, 0, 0, 10]).std3 =
        (my_describe [0, 0, 0, 10]).mean + 3 * (my_describe [0, 0, 0, 10]).std ∧
      rm_outliers_with [0, 0, 0, 10] (rm_outliers [0, 0, 0, 10]) =
        rm_outliers [0, 0, 0, 10]) :=
  ⟨by decide, claim4_rm_outliers [0, 0, 0, 10] (by decide)⟩

/-- The inner loop of `norm_to_avg2days` for one baseline entry leaves keys
that are not columns of the frame untouched. -/
theorem norm_inner_preserve (T : Table) (k : Str) (v : ℚ)
    (acc : List (Str × List (Option ℚ))) (c : Str)
    (hc : c ∉ T.map Prod.fst) :
    alookup
        (T.foldl
          (fun acc2 cv =>
            if (get_group cv.1).isPrefixOf k then
              dictUpdate acc2 cv.1 (cv.2.map (Option.map (· / v)))
            else acc2)
          acc) c =
      alookup acc c := by
  induction T generalizing acc with
  | nil => rfl
  | cons cv rest ih =>
      simp only [List.map_cons, List.mem_cons, not_or] at hc
      simp only [List.foldl_cons]
      rw [ih _ hc.2]
      by_cases hp : (get_group cv.1).isPrefixOf k
      · simp only [hp, if_true]
        exact alookup_dictUpdate_ne _ _ _ _ fun he => hc.1 he.symm
      · simp [hp]

/-- The inner loop of `norm_to_avg2days` for a baseline entry whose key the
column's group matches rebinds that column to its divided values. -/
theorem norm_inner_mem (T : Table) (hnd : (T.map Prod.fst).Nodup) (k : Str)
    (v : ℚ) (acc : List (Str × List (Option ℚ))) (c : Str)
    (vs : List (Option ℚ)) (hc : alookup T c = some vs)
    (hp : (get_group c).isPrefixOf k) :
    alookup
        (T.foldl
          (fun acc2 cv =>
            if (get_group cv.1).isPrefixOf k then
              dictUpdate acc2 cv.1 (cv.2.map (Option.map (· / v)))
            else acc2)
          acc) c =
      some (vs.map (Option.map (· / v))) := by
  induction T generalizing acc with
  | nil => cases hc
  | cons cv rest ih =>
      simp only [List.map_cons, List.nodup_cons] at hnd
      by_cases he : cv.1 = c
      · have hvs : cv.2 = vs := by
          rw [alookup, if_pos he] at hc
          exact Option.some.inj hc
        subst he
        simp only [List.foldl_cons, hp, if_true]
        rw [norm_inner_preserve rest k v _ cv.1 hnd.1, hvs,
          alookup_dictUpdate_self]
      · have hc' : alookup rest c = some vs := by
          rw [alookup, if_neg he] at hc
          exact hc
        simp only [List.foldl_cons]
        by_cases hq : (get_group cv.1).isPrefixOf k
        · simp only [hq, if_true]
          exact ih hnd.2 _ hc'
        · simp only [hq, if_false]
          exact ih hnd.2 _ hc'

/-- The inner loop of `norm_to_avg2days` does not touch a column whose group
is not a prefix of the baseline key. -/
theorem norm_inner_nomatch (T : Table) (k : Str) (v : ℚ)
    (acc : List (Str × List (Option ℚ))) (c : Str)
    (hp : ¬(get_group c).isPrefixOf k = true) :
    alookup
        (T.foldl
          (fun acc2 cv =>
            if (get_group cv.1).isPrefixOf k then
              dictUpdate acc2 cv.1 (cv.2.map (Option.map (· / v)))
            else acc2)
          acc) c =
      alookup acc c := by
  induction T generalizing acc with
  | nil => rfl
  | cons cv rest ih =>
      simp only [List.foldl_cons]
      rw [ih]
      by_cases hq : (get_group cv.1).isPrefixOf k
      · simp only [hq, if_true]
        refine alookup_dictUpdate_ne _ _ _ _ fun he => ?_
        rw [he] at hq
        exact hp hq
      · simp [hq]

/-- The outer loop of `norm_to_avg2days` over baseline entries none of which
the column's group matches leaves the column untouched. -/
theorem norm_outer_nomatch (avg : List (Str × ℚ)) (T : Table)
    (acc : List (Str × List (Option ℚ))) (c : Str)
    (hf : avg.filter (fun kv => (get_group c).isPrefixOf kv.1) = []) :
    alookup
        (avg.foldl
          (fun acc kv =>
            T.foldl
              (fun acc2 cv =>
                if (get_group cv.1).isPrefixOf kv.1 then
                  dictUpdate acc2 cv.1 (cv.2.map (Option.map (· / kv.2)))
                else acc2)
              acc)
          acc) c =
      alookup acc c := by
  induction avg generalizing acc with
  | nil => rfl
  | cons kv rest ih =>
      rw [List.filter_cons] at hf
      by_cases hp : (get_group c).isPrefixOf kv.1
      · simp [hp] at hf
      · simp only [hp, Bool.false_eq_true, if_false] at hf
        simp only [List.foldl_cons]
        rw [ih _ hf, norm_inner_nomatch _ _ _ _ _ (by simp [hp])]

/-- Lookup in the `norm_to_avg2days` dict when exactly one baseline entry
matches the column's group. -/
theorem norm_dict_lookup (avg : List (Str × ℚ)) (T : Table) (c g : Str)
    (v : ℚ) (vs : List (Option ℚ)) (hnd : (T.map Prod.fst).Nodup)
    (hc : alookup T c = some vs)
    (hf : avg.filter (fun kv => (get_group c).isPrefixOf kv.1) = [(g, v)]) :
    alookup (norm_dict avg T) c = some (vs.map (Option.map (· / v))) := by
  unfold norm_dict
  suffices hgen :
      ∀ acc,
        alookup
            (avg.foldl
              (fun acc kv =>
                T.foldl
                  (fun acc2 cv =>
                    if (get_group cv.1).isPrefixOf kv.1 then
                      dictUpdate acc2 cv.1 (cv.2.map (Option.map (· / kv.2)))
                    else acc2)
                  acc)
              acc) c =
          some (vs.map (Option.map (· / v))) by
    exact hgen []
  induction avg with
  | nil => cases hf
  | cons kv rest ih =>
      intro acc
      rw [List.filter_cons] at hf
      by_cases hp : (get_group c).isPrefixOf kv.1
      · simp only [hp, if_true] at hf
        have hkv : kv = (g, v) := (List.cons.injEq _ _ _ _).mp hf |>.1
        have hrest : rest.filter (fun kv => (get_group c).isPrefixOf kv.1) = [] :=
          (List.cons.injEq _ _ _ _).mp hf |>.2
        simp only [List.foldl_cons]
        rw [norm_outer_nomatch rest T _ c hrest]
        rw [norm_inner_mem T hnd kv.1 kv.2 acc c vs hc hp, hkv]
      · simp only [hp, Bool.false_eq_true, if_false] at hf
        simp only [List.foldl_cons]
        exact ih hf _

/-- C5: when the baseline map has exactly one entry `(g, v)` whose key the
column's group matches by prefix, `norm_to_avg2days` maps that column to its
values divided entrywise by the scalar `v`. -/
theorem claim5_normalize (groups_order : List Str) (avg : List (Str × ℚ))
    (T : Table) (c g : Str) (v : ℚ) (vs : List (Option ℚ))
    (hnd : (T.map Prod.fst).Nodup)
    (hc : alookup T c = some vs)
    (hf : avg.filter (fun kv => (get_group c).isPrefixOf kv.1) = [(g, v)])
    (hco : c ∈ groups_order) :
    alookup (norm_to_avg2days groups_order avg T) c =
      some (vs.map (Option.map (· / v))) := by
  rw [norm_to_avg2days, alookup_mk_df hco,
    norm_dict_lookup avg T c g v vs hnd hc hf]
  rfl

/-- C5 witness: the theorem applied to the single-group baseline
`ctrl_2days ↦ 2` and the frame `ctrl_2days = [2, 4]`. -/
theorem claim5_witness :
    ((([(("ctrl_2days".toList), [some (2 : ℚ), some 4])] : Table).map
        Prod.fst).Nodup ∧
      alookup ([(("ctrl_2days".toList), [some (2 : ℚ), some 4])] : Table)
          ("ctrl_2days".toList) = some [some 2, some 4] ∧
      ([(("ctrl_2days".toList), (2 : ℚ))].filter
          (fun kv => (get_group ("ctrl_2days".toList)).isPrefixOf kv.1)) =
        [(("ctrl_2days".toList), (2 : ℚ))] ∧
      ("ctrl_2days".toList) ∈ [("ctrl_2days".toList)]) ∧
    alookup
        (norm_to_avg2days [("ctrl_2days".toList)]
          [(("ctrl_2days".toList), (2 : ℚ))]
          [(("ctrl_2days".toList), [some (2 : ℚ), some 4])])
        ("ctrl_2days".toList) =
      some (([some (2 : ℚ), some 4]).map (Option.map (· / (2 : ℚ)))) :=
  ⟨⟨by decide, by decide, by decide, by decide⟩,
    claim5_normalize [("ctrl_2days".toList)]
      [(("ctrl_2days".toList), (2 : ℚ))]
      [(("ctrl_2days".toList), [some (2 : ℚ), some 4])]
      ("ctrl_2days".toList) ("ctrl_2days".toList) 2 [some 2, some 4]
      (by decide) (by decide) (by decide) (by decide)⟩

theorem cumulative_length (l : List ℕ) : (cumulative l).length = l.length := by
  induction l with
  | nil => rfl
  | cons x xs ih => simp [cumulative, ih]

theorem getD_map_add (x : ℕ) (l : List ℕ) (k : ℕ) (h : k < l.length) :
    (l.map (x + ·)).getD k 0 = x + l.getD k 0 := by
  induction l generalizing k with
  | nil => cases h
  | cons y ys ih =>
      cases k with
      | zero => rfl
      | succ k =>
          simp only [List.map_cons, List.getD_cons_succ]
          exact ih k (by simpa using h)

/-- The `(n-2)`-th running cumulative sum is the sum of the first `n-1`
entries. -/
theorem cumulative_getD (cs : List ℕ) (k : ℕ) (h : k < cs.length) :
    (cumulative cs).getD k 0 = (cs.take (k + 1)).sum := by
  induction cs generalizing k with
  | nil => cases h
  | cons x xs ih =>
      cases k with
      | zero => simp [cumulative]
      | succ k =>
          have hk : k < xs.length := by simpa using h
          have hk' : k < (cumulative xs).length := by
            rw [cumulative_length]; exact hk
          simp only [cumulative, List.getD_cons_succ]
          rw [getD_map_add x (cumulative xs) k hk', ih k hk]
          simp [List.sum_cons]

theorem getD_range_map {β : Type} (f : ℕ → β) (n i : ℕ) (d : β) (h : i < n) :
    ((List.range n).map f).getD i d = f i := by
  rw [List.getD_eq_getElem?_getD, List.getElem?_map, List.getElem?_range h]
  rfl

/-- C6 (amended): for replicate `i+1` (1-based replicate number `i+1 ≥ 2`)
and an organoid id `g ++ "_org" ++ digit`, when the group `g` occurs in
every one of the first `i+1` replicates (so its per-replicate counts
`cs` have `i+1` entries), the merged id is the same prefix with the digit
increased by the cumulative count of `g`-organoids contributed by the prior
replicates; `mergeRenumber` applies exactly this renumbering to every id of
the replicate.  (When `g` is missing from some prior replicate the offset
read at index `i-1` is not the prior cumulative count — see the
counterexample.) -/
theorem claim6_renumber (reps : List (List Str)) (i : ℕ) (g : Str) (c : Char)
    (d : ℕ) (cs : List ℕ)
    (h1 : 1 ≤ i) (h2 : i < reps.length)
    (hd : c.toNat = '0'.toNat + d)
    (hcs : ((reps.take (i + 1)).map expCounts).filterMap
      (fun ec => alookup ec g) = cs)
    (hlen : cs.length = i + 1) :
    renumberOrg ((reps.take (i + 1)).map expCounts) (i + 1)
        (g ++ ['_', 'o', 'r', 'g'] ++ [c]) =
      g ++ ['_', 'o', 'r', 'g'] ++ (Nat.repr (d + (cs.take i).sum)).toList ∧
    (mergeRenumber reps).getD i [] =
      (reps.getD i []).map
        (renumberOrg ((reps.take (i + 1)).map expCounts) (i + 1)) := by
  have hlen5 : (g ++ ['_', 'o', 'r', 'g'] ++ [c]).length = g.length + 5 := by
    simp
  have horg : strDropRight (g ++ ['_', 'o', 'r', 'g'] ++ [c]) 5 = g := by
    unfold strDropRight
    rw [hlen5, Nat.add_sub_cancel, List.append_assoc]
    exact List.take_left g (['_', 'o', 'r', 'g'] ++ [c])
  have hdrop1 : strDropRight (g ++ ['_', 'o', 'r', 'g'] ++ [c]) 1 =
      g ++ ['_', 'o', 'r', 'g'] := by
    unfold strDropRight
    have hlen4 : (g ++ ['_', 'o', 'r', 'g']).length = g.length + 4 := by simp
    rw [hlen5, show g.length + 5 - 1 = g.length + 4 by omega, ← hlen4]
    exact List.take_left _ [c]
  have hlast : lastDigitVal (g ++ ['_', 'o', 'r', 'g'] ++ [c]) = d := by
    unfold lastDigitVal
    rw [List.getLast?_concat]
    show c.toNat - '0'.toNat = d
    omega
  constructor
  · rw [renumberOrg]
    rw [horg, hcs, hdrop1, hlast]
    rw [show i + 1 - 2 = i - 1 by omega]
    rw [cumulative_getD cs (i - 1) (by omega)]
    rw [show i - 1 + 1 = i by omega]
  · rw [mergeRenumber]
    rw [getD_range_map _ _ _ _ h2]
    have hne : ¬i = 0 := by omega
    simp [hne]

/-- C6, the claim exactly as stated, is false when a group is absent from a
prior replicate: replicate 1 has only group `A`, replicate 2 has `B_org1`;
no prior replicate contributed a `B` organoid, so the claim predicts the id
stays `B_org1`, but the code reads the cumulative-count list of `B` (which
holds only replicate 2's own count, 1) at index 0 and renumbers the id to
`B_org2`. -/
theorem claim6_counterexample :
    renumberOrg
        (([[("A_org1".toList)], [("B_org1".toList)]].map expCounts)) 2
        ("B_org1".toList) =
      ("B_org2".toList) ∧
    mergeRenumber [[("A_org1".toList)], [("B_org1".toList)]] =
      [[("A_org1".toList)], [("B_org2".toList)]] ∧
    ("B_org2".toList) ≠ ("B_org1".toList) := by
  refine ⟨by decide, by decide, by decide⟩

/-- C6 witness: the amended theorem applied to the claim's scenario —
replicate 1 `ctrl` organoids `{1, 2}`, replicate 2 `ctrl` organoids
`{1, 2, 3}`; the three replicate-2 ids are offset by 2, becoming
`{3, 4, 5}`. -/
theorem claim6_witness :
    (1 ≤ 1 ∧
      1 < ([[("ctrl_org1".toList), ("ctrl_org2".toList)],
            [("ctrl_org1".toList), ("ctrl_org2".toList), ("ctrl_org3".toList)]] :
        List (List Str)).length ∧
      ('1' : Char).toNat = '0'.toNat + 1 ∧
      ('2' : Char).toNat = '0'.toNat + 2 ∧
      ('3' : Char).toNat = '0'.toNat + 3 ∧
      ((([[("ctrl_org1".toList), ("ctrl_org2".toList)],
          [("ctrl_org1".toList), ("ctrl_org2".toList), ("ctrl_org3".toList)]] :
        List (List Str)).take 2).map expCounts).filterMap
          (fun ec => alookup ec ("ctrl".toList)) = [2, 3]) ∧
    (renumberOrg
        ((([[("ctrl_org1".toList), ("ctrl_org2".toList)],
            [("ctrl_org1".toList), ("ctrl_org2".toList), ("ctrl_org3".toList)]] :
          List (List Str)).take 2).map expCounts) 2
        (("ctrl".toList) ++ ['_', 'o', 'r', 'g'] ++ ['1']) =
      ("ctrl".toList) ++ ['_', 'o', 'r', 'g'] ++
        (Nat.repr (1 + (([2, 3].take 1).sum))).toList) ∧
    (renumberOrg
        ((([[("ctrl_org1".toList), ("ctrl_org2".toList)],
            [("ctrl_org1".toList), ("ctrl_org2".toList), ("ctrl_org3".toList)]] :
          List (List Str)).take 2).map expCounts) 2
        (("ctrl".toList) ++ ['_', 'o', 'r', 'g'] ++ ['2']) =
      ("ctrl".toList) ++ ['_', 'o', 'r', 'g'] ++
        (Nat.repr (2 + (([2, 3].take 1).sum))).toList) ∧
    (renumberOrg
        ((([[("ctrl_org1".toList), ("ctrl_org2".toList)],
            [("ctrl_org1".toList), ("ctrl_org2".toList), ("ctrl_org3".toList)]] :
          List (List Str)).take 2).map expCounts) 2
        (("ctrl".toList) ++ ['_', 'o', 'r', 'g'] ++ ['3']) =
      ("ctrl".toList) ++ ['_', 'o', 'r', 'g'] ++
        (Nat.repr (3 + (([2, 3].take 1).sum))).toList) :=
  ⟨⟨by decide, by decide, by decide, by decide, by decide, by decide⟩,
    (claim6_renumber
      [[("ctrl_org1".toList), ("ctrl_org2".toList)],
        [("ctrl_org1".toList), ("ctrl_org2".toList), ("ctrl_org3".toList)]]
      1 ("ctrl".toList) '1' 1 [2, 3]
      (by decide) (by decide) (by decide) (by decide) (by decide)).1,
    (claim6_renumber
      [[("ctrl_org1".toList), ("ctrl_org2".toList)],
        [("ctrl_org1".toList), ("ctrl_org2".toList), ("ctrl_org3".toList)]]
      1 ("ctrl".toList) '2' 2 [2, 3]
      (by decide) (by decide) (by decide) (by decide) (by decide)).1,
    (claim6_renumber
      [[("ctrl_org1".toList), ("ctrl_org2".toList)],
        [("ctrl_org1".toList), ("ctrl_org2".toList), ("ctrl_org3".toList)]]
      1 ("ctrl".toList) '3' 3 [2, 3]
      (by decide) (by decide) (by decide) (by decide) (by decide)).1⟩

/-- When no path component starts with `"org"`, the parse loop leaves the
`org` local variable unbound (or bound to its previous value). -/
theorem parseStep_fst_none (groups : List (Str × Str)) (comps : List Str)
    (st : Option Str × Option Str)
    (hno : comps.all (fun comp => !((['o', 'r', 'g'] : Str).isPrefixOf comp)) =
      true) :
    (parseStep groups comps st).1 = st.1 := by
  induction comps generalizing st with
  | nil => rfl
  | cons comp rest ih =>
      simp only [List.all_cons, Bool.and_eq_true] at hno
      have hcomp : ((['o', 'r', 'g'] : Str).isPrefixOf comp) = false := by
        simpa using hno.1
      simp only [parseStep] at ih ⊢
      rw [List.foldl_cons, ih _ hno.2]
      simp only [hcomp, Bool.false_eq_true, if_false]
      by_cases hgp : (['g', 'r', 'o', 'u', 'p'] : Str).isPrefixOf comp
      · simp only [hgp, if_true]
        cases alookup groups comp <;> rfl
      · simp [hgp]

/-- When no component after the first contains `"group"`, the folder-name
scan of `data.Data.__init__` leaves `group_str` at its initial value. -/
theorem dataScan_fst_eq (comps : List Str) (s : Str × Str)
    (hno : comps.all (fun comp => !strContains comp ['g', 'r', 'o', 'u', 'p']) =
      true) :
    (dataScanFrom s comps).1 = s.1 := by
  induction comps generalizing s with
  | nil => rfl
  | cons comp rest ih =>
      simp only [List.all_cons, Bool.and_eq_true] at hno
      have hcomp : strContains comp ['g', 'r', 'o', 'u', 'p'] = false := by
        simpa using hno.1
      simp only [dataScanFrom] at ih ⊢
      rw [List.foldl_cons, ih _ hno.2]
      simp only [hcomp, Bool.false_eq_true, if_false]
      by_cases ho : strContains comp ['o', 'r', 'g'] <;> simp [ho]

/-- C8, the claim exactly as stated, is false: a file whose separator-split
components contain an organoid token but no group key is silently excluded
by the relevance filter — `match_files_with_org_id` returns an empty dict
and raises nothing. -/
theorem claim8_counterexample :
    match_files_with_org_id [("Data/xx_org1_dts.csv".toList)] '_'
        [(("group0".toList), ("ctrl".toList))] =
      Except.ok [] ∧
    (splitOnChar '_' ("Data/xx_org1_dts.csv".toList)).any
        (fun comp => (['o', 'r', 'g'] : Str).isPrefixOf comp) = true := by
  constructor
  · rfl
  · rfl

/-- C8 (amended): discovery silently skips any file without a group-key
component, whatever its other tokens; a kept file with no `"org"`-prefixed
component makes the identifier f-string fail (an unbound local, not a
dedicated ParseError) when no earlier kept file bound one; and the
`data.Data` folder-name parser fails (`int("")` raises) when no component
contains `"group"`. -/
theorem claim8_required_token_policy :
    (∀ (sep : Char) (f : Str) (groups : List (Str × Str)),
        hasGroupKey groups sep f = false →
        match_files_with_org_id [f] sep groups = Except.ok []) ∧
    (∀ (sep : Char) (f : Str) (groups : List (Str × Str)),
        hasGroupKey groups sep f = true →
        (splitOnChar sep f).all
          (fun comp => !((['o', 'r', 'g'] : Str).isPrefixOf comp)) = true →
        match_files_with_org_id [f] sep groups = Except.error ()) ∧
    (∀ name : Str,
        ((splitOnChar '_' name).drop 1).all
          (fun comp => !strContains comp ['g', 'r', 'o', 'u', 'p']) = true →
        parse_data_folder name = Except.error ()) := by
  refine ⟨?_, ?_, ?_⟩
  · intro sep f groups hkey
    unfold match_files_with_org_id
    rw [show ([f].filter (hasGroupKey groups sep)) = [] by
      simp [List.filter_cons, hkey]]
    rfl
  · intro sep f groups hkey hno
    unfold match_files_with_org_id
    rw [show ([f].filter (hasGroupKey groups sep)) = [f] by
      simp [List.filter_cons, hkey]]
    have h1 : (parseStep groups (splitOnChar sep f) (none, none)).1 = none :=
      parseStep_fst_none groups _ _ hno
    rw [matchFilesGo]
    rcases hpair : parseStep groups (splitOnChar sep f) (none, none) with ⟨o, gr⟩
    rw [hpair] at h1
    simp only at h1
    subst h1
    cases gr <;> rfl
  · intro name hno
    have h1 : (dataScanFrom ([], []) ((splitOnChar '_' name).drop 1)).1 = [] :=
      dataScan_fst_eq _ _ hno
    simp only [parse_data_folder]
    rw [h1]
    rfl

/-- C8 witness: the amended theorem applied to a group-less file (silently
skipped), a group-keyed file without an organoid token (fails), and a
folder name without a group component (fails). -/
theorem claim8_witness :
    (hasGroupKey [(("group0".toList), ("ctrl".toList))] '_'
        ("a_org1_b".toList) = false ∧
      match_files_with_org_id [("a_org1_b".toList)] '_'
          [(("group0".toList), ("ctrl".toList))] = Except.ok []) ∧
    (hasGroupKey [(("group0".toList), ("ctrl".toList))] '_'
        ("x_group0_y".toList) = true ∧
      (splitOnChar '_' ("x_group0_y".toList)).all
        (fun comp => !((['o', 'r', 'g'] : Str).isPrefixOf comp)) = true ∧
      match_files_with_org_id [("x_group0_y".toList)] '_'
          [(("group0".toList), ("ctrl".toList))] = Except.error ()) ∧
    (((splitOnChar '_' ("210101_base_rest".toList)).drop 1).all
        (fun comp => !strContains comp ['g', 'r', 'o', 'u', 'p']) = true ∧
      parse_data_folder ("210101_base_rest".toList) = Except.error ()) :=
  ⟨⟨by rfl,
      claim8_required_token_policy.1 '_' ("a_org1_b".toList)
        [(("group0".toList), ("ctrl".toList))] (by rfl)⟩,
    ⟨by rfl, by rfl,
      claim8_required_token_policy.2.1 '_' ("x_group0_y".toList)
        [(("group0".toList), ("ctrl".toList))] (by rfl) (by rfl)⟩,
    ⟨by rfl,
      claim8_required_token_policy.2.2 ("210101_base_rest".toList) (by rfl)⟩⟩

/-- C9: `stats.anova` feeds `scipy.stats.f_oneway` the *rows* of the
combined table (`df.values.tolist()`), not the per-group columns its
docstring and the spec describe: on the 2-group table `A = [1, 2]`,
`B = [3, 4]` the samples are `[1, 3]` and `[2, 4]` instead of `[1, 2]` and
`[3, 4]`. -/
theorem claim9_anova_rows :
    anova_samples
        [(("A".toList), [some 1, some 2]), (("B".toList), [some 3, some 4])] =
      [[1, 3], [2, 4]] ∧
    column_samples
        [(("A".toList), [some 1, some 2]), (("B".toList), [some 3, some 4])] =
      [[1, 2], [3, 4]] ∧
    anova_samples
        [(("A".toList), [some 1, some 2]), (("B".toList), [some 3, some 4])] ≠
      column_samples
        [(("A".toList), [some 1, some 2]), (("B".toList), [some 3, some 4])] := by
  refine ⟨by decide, by decide, by decide⟩

end GbmOrg
